import Mathlib

/-!
Shallow embedding of the two generators of this repository
(`generate-ansible-template.py` and `generate-iam-template.py`).

Python dictionaries that play the role of records are modelled as Lean
structures with `Option` fields for keys that the input-collection code
only sometimes sets; Python dictionaries used as insertion-ordered maps
are modelled as association lists with dict-style insert (update in
place when the key exists, append otherwise).  Generated Ansible tasks
are modelled by a `Task` structure holding the task name, a tagged
module payload and the optional `when` guard string.
-/

namespace AnsibleGen

/-- Helper producing a single-quote character as a string, used to build
the guard strings `ansible_os_family == 'F'` that the Python source
writes with literal quotes. -/
def squote : String := String.singleton (Char.ofNat 39)

/-- Python truthiness of an optional string: `None` and `""` are falsy.
`get_user_input` only ever stores a non-empty `key_url`, but the task
generators test the field with `.get('key_url')`, i.e. truthiness. -/
def optTruthy : Option String → Bool
  | none => false
  | some s => !s.isEmpty

/-- From `get_os_family` (generate-ansible-template.py, lines 12-23). -/
def get_os_family (os_type : String) : String :=
  let t := os_type.toLower
  if t = "ubuntu" ∨ t = "debian" then "Debian"
  else if t = "centos" ∨ t = "rhel" ∨ t = "amazonlinux" ∨ t = "fedora" then "RedHat"
  else if t = "windows" then "Windows"
  else "Linux"

/-- The `custom_repo` sub-dictionary built at lines 79-84 of
`get_user_input`: `repo_url` and `package_name` are always present,
`key_url` only when the user supplied a non-empty one. -/
structure CustomRepo where
  repo_url : String
  package_name : String
  key_url : Option String := none
deriving DecidableEq, Repr

/-- One software-install request (the `info` dictionary of
`get_user_input`, lines 69-95).  Method-specific keys are `Option`s;
the input code sets the ones its `install_method` needs. -/
structure Software where
  name : String
  install_method : String
  version : Option String := none
  custom_repo : Option CustomRepo := none
  script_url : Option String := none
  download_url : Option String := none
  install_path : Option String := none
deriving DecidableEq, Repr

/-- One server record (`get_user_input`, lines 48-56). -/
structure Server where
  hostname : String
  instance_id : String
  region : String
  os_type : String
  os_family : String
  bucket_name : String
  software : List Software
deriving DecidableEq, Repr

/-- One `(server, config)` association stored inside a software group
(`get_user_input`, lines 112-115). -/
structure ServerConfig where
  server : Server
  config : Software
deriving DecidableEq, Repr

/-- A software group: the list of distinct configurations seen and the
list of `(server, config)` associations (`get_user_input`, lines 106-118). -/
structure SoftwareGroup where
  configs : List Software
  servers : List ServerConfig
deriving DecidableEq, Repr

/-- The payload of a generated Ansible task: which module is invoked
and with which arguments. -/
inductive TaskModule where
  | rpm_key (key : String)
  | yum_repository (rname description baseurl : String) (enabled gpgcheck : Bool)
  | yum_update_cache
  | package (pname state : String)
  | snap (sname : String)
  | get_url (url dest mode : String)
  | shell (cmd : String)
  | file (path state mode : String)
  | unarchive (src dest : String) (remote_src : Bool)
deriving DecidableEq, Repr

/-- A generated Ansible task: name, module payload, optional guard. -/
structure Task where
  name : String
  module : TaskModule
  when : Option String := none
deriving DecidableEq, Repr

/-- The guard string attached to every task produced in conditional
mode: `ansible_os_family == 'F'`. -/
def family_guard (os_family : String) : String :=
  "ansible_os_family == " ++ squote ++ os_family ++ squote

/-- From `generate_os_specific_tasks` (lines 178-243): conditional-mode
synthesis.  Only the `package` and `script` methods have branches here;
any other method falls through to the empty task list. -/
def generate_os_specific_tasks (software : Software) (os_family : String) : List Task :=
  let method := software.install_method
  if method = "package" then
    (match software.custom_repo with
     | some repo =>
        (if optTruthy repo.key_url then
          [{ name := "Add GPG key for " ++ software.name,
             module := TaskModule.rpm_key (repo.key_url.getD ""),
             when := some (family_guard os_family) }]
         else []) ++
        [{ name := "Add repository for " ++ software.name,
           module := TaskModule.yum_repository (software.name ++ "-repo")
             (software.name ++ " Repository") repo.repo_url true
             (optTruthy repo.key_url),
           when := some (family_guard os_family) },
         { name := "Update package cache for " ++ software.name,
           module := TaskModule.yum_update_cache,
           when := some (family_guard os_family) }]
     | none => []) ++
    [{ name := "Install " ++ software.name ++ " on " ++ os_family,
       module := TaskModule.package
         ((software.custom_repo.map (fun r => r.package_name)).getD software.name)
         "latest",
       when := some (family_guard os_family) }]
  else if method = "script" then
    [{ name := "Download script for " ++ software.name ++ " on " ++ os_family,
       module := TaskModule.get_url (software.script_url.getD "")
         ("/tmp/" ++ software.name ++ ".sh") "0755",
       when := some (family_guard os_family) },
     { name := "Run script for " ++ software.name ++ " on " ++ os_family,
       module := TaskModule.shell ("/tmp/" ++ software.name ++ ".sh"),
       when := some (family_guard os_family) }]
  else []

/-- From `generate_basic_tasks` (lines 246-331): unconditional-mode
synthesis, covering `package`, `snap`, `script` and `manual`; any other
method falls through to the empty task list. -/
def generate_basic_tasks (software : Software) : List Task :=
  let method := software.install_method
  if method = "package" then
    (match software.custom_repo with
     | some repo =>
        (if optTruthy repo.key_url then
          [{ name := "Add GPG key for " ++ software.name,
             module := TaskModule.rpm_key (repo.key_url.getD "") }]
         else []) ++
        [{ name := "Add repository for " ++ software.name,
           module := TaskModule.yum_repository (software.name ++ "-repo")
             (software.name ++ " Repository") repo.repo_url true
             (optTruthy repo.key_url) },
         { name := "Update package cache for " ++ software.name,
           module := TaskModule.yum_update_cache }]
     | none => []) ++
    [{ name := "Install " ++ software.name,
       module := TaskModule.package
         ((software.custom_repo.map (fun r => r.package_name)).getD software.name)
         "latest" }]
  else if method = "snap" then
    [{ name := "Install " ++ software.name ++ " via snap",
       module := TaskModule.snap software.name }]
  else if method = "script" then
    [{ name := "Download script for " ++ software.name,
       module := TaskModule.get_url (software.script_url.getD "")
         ("/tmp/" ++ software.name ++ ".sh") "0755" },
     { name := "Run script for " ++ software.name,
       module := TaskModule.shell ("/tmp/" ++ software.name ++ ".sh") }]
  else if method = "manual" then
    [{ name := "Create install directory",
       module := TaskModule.file (software.install_path.getD "") "directory" "0755" },
     { name := "Download and extract",
       module := TaskModule.unarchive (software.download_url.getD "")
         (software.install_path.getD "") true }]
  else []

/-- One step of the `os_configs` loop of `generate_software_tasks`
(lines 160-164): keep the accumulated map unless the OS family is new,
in which case append its first-seen configuration. -/
def osStep (acc : List (String × Software)) (sc : ServerConfig) : List (String × Software) :=
  if acc.any (fun p => p.1 = sc.server.os_family) then acc
  else acc ++ [(sc.server.os_family, sc.config)]

/-- The `os_configs` dictionary of `generate_software_tasks` (lines
158-164): iterate the group's `(server, config)` associations and keep,
per OS family, the first configuration seen.  Python dicts preserve
insertion order, so the map is an association list appended at the end. -/
def buildOsConfigs (servers : List ServerConfig) : List (String × Software) :=
  servers.foldl osStep []

/-- From `generate_software_tasks` (lines 154-175).  With more than one
OS family each family's first-seen config is rendered conditionally, in
insertion order; with exactly one the single config is rendered
unconditionally.  `list(os_configs.values())[0]` raises on an empty
group, modelled as `none`. -/
def generate_software_tasks (g : SoftwareGroup) : Option (List Task) :=
  if 1 < (buildOsConfigs g.servers).length then
    some (((buildOsConfigs g.servers).map (fun p => generate_os_specific_tasks p.2 p.1)).flatten)
  else
    match buildOsConfigs g.servers with
    | [] => none
    | c :: _ => some (generate_basic_tasks c.2)

/-- Lookup in an association list with string keys (the shape of a
Python dict observed through `name in d` / `d[name]`). -/
def lookupStr {β : Type} (k : String) : List (String × β) → Option β
  | [] => none
  | p :: rest => if p.1 = k then some p.2 else lookupStr k rest

/-- Dict-style insert: when the key is present the entry is replaced in
place, otherwise the pair is appended (Python insertion order). -/
def dictInsert {β : Type} (l : List (String × β)) (k : String) (v : β) : List (String × β) :=
  if l.any (fun p => p.1 = k) then
    l.map (fun p => if p.1 = k then (k, v) else p)
  else l ++ [(k, v)]

/-- Adding one `(server, software)` pair to a group: the association is
always appended; the configuration only when it is not already present
by full-field equality (`get_user_input`, lines 111-118). -/
def addToGroup (g : SoftwareGroup) (srv : Server) (sw : Software) : SoftwareGroup :=
  { configs := if sw ∈ g.configs then g.configs else g.configs ++ [sw],
    servers := g.servers ++ [⟨srv, sw⟩] }

/-- The empty group created when a software name is first seen
(`get_user_input`, lines 106-110). -/
def emptyGroup : SoftwareGroup := ⟨[], []⟩

/-- One step of the grouping loop: look up or create the group keyed by
the software's name and add the pair to it. -/
def insertSoftware (gs : List (String × SoftwareGroup)) (srv : Server) (sw : Software) :
    List (String × SoftwareGroup) :=
  if gs.any (fun p => p.1 = sw.name) then
    gs.map (fun p => if p.1 = sw.name then (p.1, addToGroup p.2 srv sw) else p)
  else gs ++ [(sw.name, addToGroup emptyGroup srv sw)]

/-- The grouping loop of `get_user_input` (lines 101-120): iterate all
servers, and within each server its software list, in input order. -/
def software_groups (servers : List Server) : List (String × SoftwareGroup) :=
  servers.foldl (fun gs srv => srv.software.foldl (fun gs2 sw => insertSoftware gs2 srv sw) gs) []

/-- Dedup keeping the first occurrence of each value, the policy of the
`configs` list: append only when not already present. -/
def firstSeenDedup {α : Type} [DecidableEq α] (l : List α) : List α :=
  l.foldl (fun acc x => if x ∈ acc then acc else acc ++ [x]) []

/-- The stream of software specifications named `n`, in input order
(all servers' software lists concatenated, filtered by name). -/
def specsFor (servers : List Server) (n : String) : List Software :=
  ((servers.map (fun s => s.software)).flatten).filter (fun sw => sw.name = n)

/-- Folding a run of `(server, software)` pairs into one group, the way
the grouping loop does for the pairs that share one software name. -/
def groupFold (g : SoftwareGroup) (ps : List (Server × Software)) : SoftwareGroup :=
  ps.foldl (fun g2 p => addToGroup g2 p.1 p.2) g

/-- The flattened stream of `(server, software)` pairs visited by the
grouping loop, in its iteration order. -/
def pairsOf (servers : List Server) : List (Server × Software) :=
  (servers.map (fun s => s.software.map (fun sw => (s, sw)))).flatten

/-- The per-host connection variables written into the inventory
(`generate_inventory`, lines 133-137). -/
structure HostVars where
  ansible_connection : String
  ansible_aws_ssm_instance_id : String
  ansible_aws_ssm_region : String
deriving DecidableEq, Repr

/-- The host entry generated for one server. -/
def hostEntry (server : Server) : HostVars :=
  ⟨"aws_ssm", server.instance_id, server.region⟩

/-- The `hosts` dict of one inventory group: iterate the group's
associations and assign `hosts[hostname] = entry` (dict semantics). -/
def inventoryGroupHosts (g : SoftwareGroup) : List (String × HostVars) :=
  g.servers.foldl (fun hosts sc => dictInsert hosts sc.server.hostname (hostEntry sc.server)) []

/-- From `generate_inventory` (lines 123-139): one group
`<name>_servers` per software group, named after the group's first
configuration (`configs[0]`, which raises on an empty list, modelled
as `none`). -/
def generate_inventory (groups : List SoftwareGroup) :
    Option (List (String × List (String × HostVars))) :=
  groups.foldlM
    (fun inv g =>
      (g.configs.head?).map (fun c => dictInsert inv (c.name ++ "_servers") (inventoryGroupHosts g)))
    []

/-- Sample custom repository with a signing key. -/
def dockerRepo : CustomRepo :=
  { repo_url := "https://download.example.com/linux/centos",
    package_name := "docker-ce",
    key_url := some "https://download.example.com/gpg" }

/-- Sample `package` specification with a custom repository and a
signing key, shaped like the docker example in the source prompts. -/
def dockerSpec : Software :=
  { name := "docker", install_method := "package", custom_repo := some dockerRepo }

/-- Sample `manual` specification. -/
def toolSpec : Software :=
  { name := "tool", install_method := "manual",
    download_url := some "https://example.com/tool.tar.gz",
    install_path := some "/opt/tool" }

/-- Sample specification with an unrecognized install method. -/
def pipSpec : Software :=
  { name := "numpy", install_method := "pip" }

/-- Sample Debian server requesting `dockerSpec`. -/
def web1 : Server :=
  { hostname := "web1", instance_id := "i-aaa", region := "us-east-1",
    os_type := "ubuntu", os_family := "Debian", bucket_name := "logs",
    software := [dockerSpec] }

/-- Sample RedHat server requesting `dockerSpec`. -/
def web2 : Server :=
  { hostname := "web2", instance_id := "i-bbb", region := "us-east-1",
    os_type := "centos", os_family := "RedHat", bucket_name := "logs",
    software := [dockerSpec] }

/-- A second RedHat server, for single-family scenarios. -/
def web3 : Server :=
  { hostname := "web3", instance_id := "i-ccc", region := "eu-west-1",
    os_type := "rhel", os_family := "RedHat", bucket_name := "logs",
    software := [dockerSpec] }

end AnsibleGen

namespace IamGen

/-- One collected IAM user record (`get_user_input` of
generate-iam-template.py, lines 63-68). -/
structure IAMUser where
  username : String
  expiration_days : Int
  policy_name : String
  password : String
deriving DecidableEq, Repr

/-- The same user with the expiration field blanked; used to state that
the generated playbook depends on users only through the other fields. -/
def eraseExp (u : IAMUser) : IAMUser := { u with expiration_days := 0 }

/-- Tasks of the generated IAM playbook (`create_ansible_playbook`,
lines 87-154), tagged by which block of the source builds them. -/
inductive IamTask where
  | password_policy (min_pw_length : Int)
      (require_symbols require_numbers require_uppercase require_lowercase allow_pw_change : Bool)
      (pw_max_age pw_reuse_prevent : Int) (state : String)
  | check_user (uname register : String) (ignore_errors : Bool)
  | create_user (uname password update_password state when : String)
  | update_user_password (uname password update_password state when : String) (ignore_errors : Bool)
  | attach_policy (uname : String) (managed_policies : List String) (state : String)
deriving DecidableEq, Repr

/-- The playbook document (`create_ansible_playbook`, lines 78-84). -/
structure Playbook where
  name : String
  hosts : String
  gather_facts : Bool
  vars_files : List String
  tasks : List IamTask
deriving DecidableEq, Repr

/-- The vault variable reference `{{ vault_<user>_password }}`. -/
def vaultRef (username : String) : String :=
  "\x7b\x7b vault_" ++ username ++ "_password \x7d\x7d"

/-- The four tasks appended per user by the loop of
`create_ansible_playbook` (lines 103-154). -/
def userTasks (u : IAMUser) : List IamTask :=
  [IamTask.check_user u.username (u.username ++ "_exists") true,
   IamTask.create_user u.username (vaultRef u.username) "on_create" "present"
     (u.username ++ "_exists.failed"),
   IamTask.update_user_password u.username (vaultRef u.username) "always" "present"
     ("not " ++ u.username ++ "_exists.failed") true,
   IamTask.attach_policy u.username ["arn:aws:iam::aws:policy/" ++ u.policy_name] "present"]

/-- From `create_ansible_playbook` (lines 76-156): the account
password-policy task first, then four tasks per user in input order. -/
def create_ansible_playbook (users : List IAMUser) (max_pw_age : Int) : Playbook :=
  { name := "Create IAM Users with Password Expiration",
    hosts := "localhost",
    gather_facts := false,
    vars_files := ["vault.yml"],
    tasks :=
      IamTask.password_policy 12 true true true true true max_pw_age 3 "present"
        :: (users.map userTasks).flatten }

/-- Outcome of the external `ansible-vault` invocation: success,
non-zero exit, or the tool being absent (FileNotFoundError). -/
inductive EncOutcome where
  | ok
  | fail (stderr : String)
  | toolMissing
deriving DecidableEq, Repr

/-- Observable side effects of the IAM generator's run, in order. -/
inductive Event where
  | writeTempVault (data : List (String × String))
  | encryptVault
  | removeTempVault
  | writePlaybook (pbs : List Playbook)
deriving DecidableEq, Repr

/-- The plaintext vault mapping (`create_vault_file`, lines 160-163). -/
def vault_data (users : List IAMUser) : List (String × String) :=
  users.map (fun u => ("vault_" ++ u.username ++ "_password", u.password))

/-- From `create_vault_file` (lines 158-191): write the temporary
plaintext file, run `ansible-vault encrypt`; on success remove the
temporary file and return true, on non-zero exit or a missing tool
return false (when the tool is missing, `Popen` raises before any
encryption happens). -/
def create_vault_file (users : List IAMUser) (enc : EncOutcome) : Bool × List Event :=
  match enc with
  | EncOutcome.toolMissing => (false, [Event.writeTempVault (vault_data users)])
  | EncOutcome.fail _ => (false, [Event.writeTempVault (vault_data users), Event.encryptVault])
  | EncOutcome.ok =>
      (true, [Event.writeTempVault (vault_data users), Event.encryptVault, Event.removeTempVault])

/-- From `main` of generate-iam-template.py (lines 193-231): exit early
on no users or an empty vault password; create the vault file and stop
if that fails; only then compute `max_pw_age` from the first user and
write `create_iam_users.yml`. -/
def main_run (users : List IAMUser) (vault_password : String) (enc : EncOutcome) : List Event :=
  match users with
  | [] => []
  | u :: rest =>
      if vault_password = "" then []
      else
        let r := create_vault_file (u :: rest) enc
        if r.1 = false then r.2
        else
          r.2 ++ [Event.writePlaybook [create_ansible_playbook (u :: rest) u.expiration_days]]

/-- Sample IAM users for concrete witnesses. -/
def userA : IAMUser :=
  { username := "alice", expiration_days := 90,
    policy_name := "ReadOnlyAccess", password := "Aa1!aaaaaaaa" }

/-- A second sample IAM user. -/
def userB : IAMUser :=
  { username := "bob", expiration_days := 30,
    policy_name := "PowerUserAccess", password := "Bb2@bbbbbbbb" }

end IamGen

namespace AnsibleGen

/-- C1: for every `package` SoftwareSpec with a custom repository and a
signing-key URL, both the unconditional and the conditional synthesis
produce exactly, in order: add-signing-key, add-repository (named
`<software>-repo`, GPG verification on), update-package-cache, install
(resolved package name, state latest); the conditional steps carry the
family guard. -/
theorem c1_repo_step_order (sw : Software) (repo : CustomRepo) (fam : String)
    (hm : sw.install_method = "package") (hr : sw.custom_repo = some repo)
    (hk : optTruthy repo.key_url = true) :
    generate_basic_tasks sw =
      [{ name := "Add GPG key for " ++ sw.name,
         module := TaskModule.rpm_key (repo.key_url.getD "") },
       { name := "Add repository for " ++ sw.name,
         module := TaskModule.yum_repository (sw.name ++ "-repo") (sw.name ++ " Repository")
           repo.repo_url true true },
       { name := "Update package cache for " ++ sw.name,
         module := TaskModule.yum_update_cache },
       { name := "Install " ++ sw.name,
         module := TaskModule.package repo.package_name "latest" }] ∧
    generate_os_specific_tasks sw fam =
      [{ name := "Add GPG key for " ++ sw.name,
         module := TaskModule.rpm_key (repo.key_url.getD ""),
         when := some (family_guard fam) },
       { name := "Add repository for " ++ sw.name,
         module := TaskModule.yum_repository (sw.name ++ "-repo") (sw.name ++ " Repository")
           repo.repo_url true true,
         when := some (family_guard fam) },
       { name := "Update package cache for " ++ sw.name,
         module := TaskModule.yum_update_cache,
         when := some (family_guard fam) },
       { name := "Install " ++ sw.name ++ " on " ++ fam,
         module := TaskModule.package repo.package_name "latest",
         when := some (family_guard fam) }] := by
  constructor <;> simp [generate_basic_tasks, generate_os_specific_tasks, hm, hr, hk]

/-- Concrete instantiation of `c1_repo_step_order` on `dockerSpec`. -/
theorem c1_repo_step_order_witness :
    dockerSpec.install_method = "package" ∧
    dockerSpec.custom_repo = some dockerRepo ∧
    optTruthy dockerRepo.key_url = true ∧
    generate_basic_tasks dockerSpec =
      [{ name := "Add GPG key for " ++ dockerSpec.name,
         module := TaskModule.rpm_key (dockerRepo.key_url.getD "") },
       { name := "Add repository for " ++ dockerSpec.name,
         module := TaskModule.yum_repository (dockerSpec.name ++ "-repo")
           (dockerSpec.name ++ " Repository") dockerRepo.repo_url true true },
       { name := "Update package cache for " ++ dockerSpec.name,
         module := TaskModule.yum_update_cache },
       { name := "Install " ++ dockerSpec.name,
         module := TaskModule.package dockerRepo.package_name "latest" }] ∧
    generate_os_specific_tasks dockerSpec "RedHat" =
      [{ name := "Add GPG key for " ++ dockerSpec.name,
         module := TaskModule.rpm_key (dockerRepo.key_url.getD ""),
         when := some (family_guard "RedHat") },
       { name := "Add repository for " ++ dockerSpec.name,
         module := TaskModule.yum_repository (dockerSpec.name ++ "-repo")
           (dockerSpec.name ++ " Repository") dockerRepo.repo_url true true,
         when := some (family_guard "RedHat") },
       { name := "Update package cache for " ++ dockerSpec.name,
         module := TaskModule.yum_update_cache,
         when := some (family_guard "RedHat") },
       { name := "Install " ++ dockerSpec.name ++ " on " ++ "RedHat",
         module := TaskModule.package dockerRepo.package_name "latest",
         when := some (family_guard "RedHat") }] :=
  ⟨rfl, rfl, rfl,
   (c1_repo_step_order dockerSpec dockerRepo "RedHat" rfl rfl rfl).1,
   (c1_repo_step_order dockerSpec dockerRepo "RedHat" rfl rfl rfl).2⟩

/-- C7: an install method outside the four recognized values yields the
empty step sequence from both synthesis modes (a silent no-op: both
functions are total and raise nothing). -/
theorem c7_unrecognized_method_no_steps (sw : Software) (fam : String)
    (h : sw.install_method ∉ ["package", "snap", "script", "manual"]) :
    generate_basic_tasks sw = [] ∧ generate_os_specific_tasks sw fam = [] := by
  simp only [List.mem_cons, List.mem_singleton, not_or] at h
  obtain ⟨h1, h2, h3, h4⟩ := h
  constructor <;>
    simp [generate_basic_tasks, generate_os_specific_tasks, h1, h2, h3, h4]

/-- Concrete instantiation of `c7_unrecognized_method_no_steps` on a
spec requesting method `pip`. -/
theorem c7_unrecognized_method_no_steps_witness :
    pipSpec.install_method ∉ ["package", "snap", "script", "manual"] ∧
    generate_basic_tasks pipSpec = [] ∧ generate_os_specific_tasks pipSpec "Debian" = [] :=
  ⟨by decide, (c7_unrecognized_method_no_steps pipSpec "Debian" (by decide)).1,
   (c7_unrecognized_method_no_steps pipSpec "Debian" (by decide)).2⟩

/-- C3 fails as stated: conditional-mode synthesis has no `manual`
branch, so a concrete manual spec that yields two steps unconditionally
yields no steps at all under an OS-family guard. -/
theorem c3_manual_conditional_counterexample :
    generate_os_specific_tasks toolSpec "RedHat" = [] ∧
    generate_basic_tasks toolSpec ≠ [] := by
  constructor
  · rfl
  · decide

/-- C3 amended: for every `manual` SoftwareSpec, unconditional-mode
synthesis produces the create-install-directory step (mode 0755)
followed by the download-and-extract step at the configured install
path; conditional-mode synthesis yields no steps for `manual`. -/
theorem c3_manual_step_order (sw : Software) (fam : String)
    (hm : sw.install_method = "manual") :
    generate_basic_tasks sw =
      [{ name := "Create install directory",
         module := TaskModule.file (sw.install_path.getD "") "directory" "0755" },
       { name := "Download and extract",
         module := TaskModule.unarchive (sw.download_url.getD "")
           (sw.install_path.getD "") true }] ∧
    generate_os_specific_tasks sw fam = [] := by
  constructor <;> simp [generate_basic_tasks, generate_os_specific_tasks, hm]

/-- Concrete instantiation of `c3_manual_step_order` on `toolSpec`. -/
theorem c3_manual_step_order_witness :
    toolSpec.install_method = "manual" ∧
    generate_basic_tasks toolSpec =
      [{ name := "Create install directory",
         module := TaskModule.file (toolSpec.install_path.getD "") "directory" "0755" },
       { name := "Download and extract",
         module := TaskModule.unarchive (toolSpec.download_url.getD "")
           (toolSpec.install_path.getD "") true }] ∧
    generate_os_specific_tasks toolSpec "Debian" = [] :=
  ⟨rfl, (c3_manual_step_order toolSpec "Debian" rfl).1,
   (c3_manual_step_order toolSpec "Debian" rfl).2⟩

/-- Every task produced by unconditional-mode synthesis that installs
through the `package` module targets state `latest`. -/
theorem basic_tasks_state_latest (sw : Software) :
    ∀ t ∈ generate_basic_tasks sw, ∀ p s, t.module = TaskModule.package p s → s = "latest" := by
  intro t ht p s hmod
  unfold generate_basic_tasks at ht
  by_cases h1 : sw.install_method = "package"
  · rcases hc : sw.custom_repo with _ | repo
    · simp [h1, hc] at ht
      subst ht
      simp only [] at hmod
      cases hmod
      rfl
    · by_cases hk : optTruthy repo.key_url
      · simp [h1, hc, hk] at ht
        rcases ht with h | h | h | h <;> subst h <;> simp only [] at hmod <;>
          cases hmod <;> rfl
      · simp [h1, hc, hk] at ht
        rcases ht with h | h | h <;> subst h <;> simp only [] at hmod <;>
          cases hmod <;> rfl
  · by_cases h2 : sw.install_method = "snap"
    · simp [h1, h2] at ht
      subst ht
      cases hmod
    · by_cases h3 : sw.install_method = "script"
      · simp [h1, h2, h3] at ht
        rcases ht with h | h <;> subst h <;> cases hmod
      · by_cases h4 : sw.install_method = "manual"
        · simp [h1, h2, h3, h4] at ht
          rcases ht with h | h <;> subst h <;> cases hmod
        · simp [h1, h2, h3, h4] at ht

/-- Every task produced by conditional-mode synthesis that installs
through the `package` module targets state `latest`. -/
theorem os_tasks_state_latest (sw : Software) (fam : String) :
    ∀ t ∈ generate_os_specific_tasks sw fam, ∀ p s,
      t.module = TaskModule.package p s → s = "latest" := by
  intro t ht p s hmod
  unfold generate_os_specific_tasks at ht
  by_cases h1 : sw.install_method = "package"
  · rcases hc : sw.custom_repo with _ | repo
    · simp [h1, hc] at ht
      subst ht
      cases hmod
      rfl
    · by_cases hk : optTruthy repo.key_url
      · simp [h1, hc, hk] at ht
        rcases ht with h | h | h | h <;> subst h <;> simp only [] at hmod <;>
          cases hmod <;> rfl
      · simp [h1, hc, hk] at ht
        rcases ht with h | h | h <;> subst h <;> simp only [] at hmod <;>
          cases hmod <;> rfl
  · by_cases h2 : sw.install_method = "script"
    · simp [h1, h2] at ht
      rcases ht with h | h <;> subst h <;> cases hmod
    · simp [h1, h2] at ht

/-- C9: the requested version never influences synthesis — two specs
equal up to the version field produce identical step sequences in both
modes — and every `package` install step targets state `latest`. -/
theorem c9_version_noninterference (sw sw' : Software) (fam : String)
    (h : { sw with version := none } = { sw' with version := none }) :
    generate_basic_tasks sw = generate_basic_tasks sw' ∧
    generate_os_specific_tasks sw fam = generate_os_specific_tasks sw' fam ∧
    (∀ t ∈ generate_basic_tasks sw, ∀ p s, t.module = TaskModule.package p s → s = "latest") ∧
    (∀ t ∈ generate_os_specific_tasks sw fam, ∀ p s,
      t.module = TaskModule.package p s → s = "latest") := by
  have e1 : generate_basic_tasks sw = generate_basic_tasks { sw with version := none } := rfl
  have e2 : generate_basic_tasks sw' = generate_basic_tasks { sw' with version := none } := rfl
  have e3 : generate_os_specific_tasks sw fam
      = generate_os_specific_tasks { sw with version := none } fam := rfl
  have e4 : generate_os_specific_tasks sw' fam
      = generate_os_specific_tasks { sw' with version := none } fam := rfl
  refine ⟨?_, ?_, basic_tasks_state_latest sw, os_tasks_state_latest sw fam⟩
  · rw [e1, h, ← e2]
  · rw [e3, h, ← e4]

/-- Every task produced by unconditional-mode synthesis carries no
family guard. -/
theorem basic_tasks_no_guard (sw : Software) :
    ∀ t ∈ generate_basic_tasks sw, t.when = none := by
  intro t ht
  unfold generate_basic_tasks at ht
  by_cases h1 : sw.install_method = "package"
  · rcases hc : sw.custom_repo with _ | repo
    · simp [h1, hc] at ht
      subst ht; rfl
    · by_cases hk : optTruthy repo.key_url
      · simp [h1, hc, hk] at ht
        rcases ht with h | h | h | h <;> subst h <;> rfl
      · simp [h1, hc, hk] at ht
        rcases ht with h | h | h <;> subst h <;> rfl
  · by_cases h2 : sw.install_method = "snap"
    · simp [h1, h2] at ht
      subst ht; rfl
    · by_cases h3 : sw.install_method = "script"
      · simp [h1, h2, h3] at ht
        rcases ht with h | h <;> subst h <;> rfl
      · by_cases h4 : sw.install_method = "manual"
        · simp [h1, h2, h3, h4] at ht
          rcases ht with h | h <;> subst h <;> rfl
        · simp [h1, h2, h3, h4] at ht

/-- Every task produced by conditional-mode synthesis carries exactly
the guard for its OS family. -/
theorem os_tasks_guard (sw : Software) (fam : String) :
    ∀ t ∈ generate_os_specific_tasks sw fam, t.when = some (family_guard fam) := by
  intro t ht
  unfold generate_os_specific_tasks at ht
  by_cases h1 : sw.install_method = "package"
  · rcases hc : sw.custom_repo with _ | repo
    · simp [h1, hc] at ht
      subst ht; rfl
    · by_cases hk : optTruthy repo.key_url
      · simp [h1, hc, hk] at ht
        rcases ht with h | h | h | h <;> subst h <;> rfl
      · simp [h1, hc, hk] at ht
        rcases ht with h | h | h <;> subst h <;> rfl
  · by_cases h2 : sw.install_method = "script"
    · simp [h1, h2] at ht
      rcases ht with h | h <;> subst h <;> rfl
    · simp [h1, h2] at ht

/-- Membership of a key in an association list coincides with the
`any`-test the Python `in` operator performs. -/
theorem any_key_true {β : Type} (l : List (String × β)) (k : String) :
    (l.any (fun p => p.1 = k) = true) ↔ k ∈ l.map Prod.fst := by
  induction l with
  | nil => simp
  | cons p rest ih =>
      simp only [List.any_cons, Bool.or_eq_true, decide_eq_true_eq, List.map_cons,
        List.mem_cons, ih]
      constructor
      · rintro (h | h)
        · exact Or.inl h.symm
        · exact Or.inr h
      · rintro (h | h)
        · exact Or.inl h.symm
        · exact Or.inr h

/-- Keys already present in the accumulator survive the `os_configs`
fold. -/
theorem foldl_osStep_keys_mono (l : List ServerConfig) (acc : List (String × Software))
    (f : String) (hf : f ∈ acc.map Prod.fst) :
    f ∈ (l.foldl osStep acc).map Prod.fst := by
  induction l generalizing acc with
  | nil => simpa using hf
  | cons sc rest ih =>
      simp only [List.foldl_cons]
      apply ih
      unfold osStep
      split
      · exact hf
      · simp only [List.map_append, List.mem_append]
        exact Or.inl hf

/-- Every association's OS family ends up among the keys of the
`os_configs` fold. -/
theorem mem_keys_foldl_osStep (l : List ServerConfig) (acc : List (String × Software))
    (sc : ServerConfig) (h : sc ∈ l) :
    sc.server.os_family ∈ (l.foldl osStep acc).map Prod.fst := by
  induction l generalizing acc with
  | nil => simp at h
  | cons sc0 rest ih =>
      rcases List.mem_cons.mp h with heq | hmem
      · subst heq
        simp only [List.foldl_cons]
        apply foldl_osStep_keys_mono
        unfold osStep
        split
        · next hany => exact (any_key_true acc _).mp hany
        · simp
      · simp only [List.foldl_cons]
        exact ih _ hmem

/-- When every association's family is already a key of the
accumulator, the `os_configs` fold is the identity. -/
theorem foldl_osStep_all_mem (l : List ServerConfig) (acc : List (String × Software))
    (h : ∀ sc ∈ l, sc.server.os_family ∈ acc.map Prod.fst) :
    l.foldl osStep acc = acc := by
  induction l with
  | nil => rfl
  | cons sc rest ih =>
      simp only [List.foldl_cons]
      have h1 : osStep acc sc = acc := by
        unfold osStep
        rw [if_pos ((any_key_true acc _).mpr (h sc (List.mem_cons_self _ _)))]
      rw [h1]
      exact ih (fun sc' h' => h sc' (List.mem_cons_of_mem _ h'))

/-- A group whose associations all share one OS family derives the
singleton map carrying the first association's configuration. -/
theorem buildOsConfigs_single (sc : ServerConfig) (rest : List ServerConfig) (f : String)
    (hall : ∀ x ∈ sc :: rest, x.server.os_family = f) :
    buildOsConfigs (sc :: rest) = [(f, sc.config)] := by
  have hf : sc.server.os_family = f := hall sc (List.mem_cons_self _ _)
  unfold buildOsConfigs
  simp only [List.foldl_cons]
  have h0 : osStep [] sc = [(f, sc.config)] := by
    unfold osStep
    simp [hf]
  rw [h0]
  apply foldl_osStep_all_mem
  intro x hx
  simp [hall x (List.mem_cons_of_mem _ hx)]

/-- Every entry of the `os_configs` fold comes from the accumulator or
from one of the folded associations. -/
theorem mem_of_mem_foldl_osStep (l : List ServerConfig) (acc : List (String × Software))
    (p : String × Software) (hp : p ∈ l.foldl osStep acc) :
    p ∈ acc ∨ ∃ sc ∈ l, sc.server.os_family = p.1 ∧ sc.config = p.2 := by
  induction l generalizing acc with
  | nil => exact Or.inl (by simpa using hp)
  | cons sc rest ih =>
      simp only [List.foldl_cons] at hp
      rcases ih _ hp with h | ⟨sc', hsc', h1, h2⟩
      · unfold osStep at h
        split at h
        · exact Or.inl h
        · rcases List.mem_append.mp h with h | h
          · exact Or.inl h
          · right
            refine ⟨sc, List.mem_cons_self _ _, ?_⟩
            simp only [List.mem_singleton] at h
            subst h
            exact ⟨rfl, rfl⟩
      · exact Or.inr ⟨sc', List.mem_cons_of_mem _ hsc', h1, h2⟩

/-- A list with two distinct members has more than one element. -/
theorem one_lt_length_of_two_mem {α : Type} (l : List α) (a b : α)
    (ha : a ∈ l) (hb : b ∈ l) (hab : a ≠ b) : 1 < l.length := by
  match l with
  | [] => simp at ha
  | [x] =>
      simp only [List.mem_singleton] at ha hb
      exact absurd (ha.trans hb.symm) hab
  | x :: y :: rest =>
      simp only [List.length_cons]
      omega

/-- C2: a group whose servers all share one OS family synthesizes with
no family-guard conditions; a group spanning at least two families
synthesizes only steps guarded by the OS family of one of its servers. -/
theorem c2_guards_iff_multiple_families (g : SoftwareGroup) :
    (∀ f, g.servers ≠ [] → (∀ sc ∈ g.servers, sc.server.os_family = f) →
      ∃ ts, generate_software_tasks g = some ts ∧ ∀ t ∈ ts, t.when = none) ∧
    (∀ sc1 ∈ g.servers, ∀ sc2 ∈ g.servers, sc1.server.os_family ≠ sc2.server.os_family →
      ∃ ts, generate_software_tasks g = some ts ∧
        ∀ t ∈ ts, ∃ sc ∈ g.servers, t.when = some (family_guard sc.server.os_family)) := by
  constructor
  · intro f hne hall
    obtain ⟨cfgs, srvs⟩ := g
    cases srvs with
    | nil => exact absurd rfl hne
    | cons sc rest =>
        have hb : buildOsConfigs (sc :: rest) = [(f, sc.config)] :=
          buildOsConfigs_single sc rest f hall
        refine ⟨generate_basic_tasks sc.config, ?_, basic_tasks_no_guard sc.config⟩
        simp [generate_software_tasks, hb]
  · intro sc1 h1 sc2 h2 hne
    have hk1 := mem_keys_foldl_osStep g.servers [] sc1 h1
    have hk2 := mem_keys_foldl_osStep g.servers [] sc2 h2
    have hlen : 1 < (buildOsConfigs g.servers).length := by
      have h := one_lt_length_of_two_mem _ _ _ hk1 hk2 hne
      rwa [List.length_map] at h
    refine ⟨((buildOsConfigs g.servers).map
        (fun p => generate_os_specific_tasks p.2 p.1)).flatten, ?_, ?_⟩
    · unfold generate_software_tasks
      rw [if_pos hlen]
    · intro t ht
      simp only [List.mem_flatten, List.mem_map] at ht
      rcases ht with ⟨ts, ⟨p, hp, rfl⟩, htts⟩
      rcases mem_of_mem_foldl_osStep g.servers [] p hp with h | ⟨sc, hsc, hfam, _⟩
      · simp at h
      · exact ⟨sc, hsc, by rw [hfam]; exact os_tasks_guard _ _ t htts⟩

/-- Concrete instantiation of `c2_guards_iff_multiple_families`: a
single-family group yields unguarded steps, a two-family group yields
only guarded steps. -/
theorem c2_guards_iff_multiple_families_witness :
    ((⟨[dockerSpec], [⟨web2, dockerSpec⟩, ⟨web3, dockerSpec⟩]⟩ : SoftwareGroup).servers ≠ [] ∧
     (∀ sc ∈ (⟨[dockerSpec], [⟨web2, dockerSpec⟩, ⟨web3, dockerSpec⟩]⟩ : SoftwareGroup).servers,
        sc.server.os_family = "RedHat") ∧
     ∃ ts, generate_software_tasks ⟨[dockerSpec], [⟨web2, dockerSpec⟩, ⟨web3, dockerSpec⟩]⟩
         = some ts ∧ ∀ t ∈ ts, t.when = none) ∧
    ((⟨web1, dockerSpec⟩ : ServerConfig).server.os_family ≠
      (⟨web2, dockerSpec⟩ : ServerConfig).server.os_family ∧
     ∃ ts, generate_software_tasks ⟨[dockerSpec], [⟨web1, dockerSpec⟩, ⟨web2, dockerSpec⟩]⟩
         = some ts ∧
       ∀ t ∈ ts, ∃ sc ∈ (⟨[dockerSpec], [⟨web1, dockerSpec⟩, ⟨web2, dockerSpec⟩]⟩ :
           SoftwareGroup).servers, t.when = some (family_guard sc.server.os_family)) :=
  ⟨⟨by decide, by decide,
    (c2_guards_iff_multiple_families ⟨[dockerSpec], [⟨web2, dockerSpec⟩, ⟨web3, dockerSpec⟩]⟩).1
      "RedHat" (by decide) (by decide)⟩,
   ⟨by decide,
    (c2_guards_iff_multiple_families ⟨[dockerSpec], [⟨web1, dockerSpec⟩, ⟨web2, dockerSpec⟩]⟩).2
      ⟨web1, dockerSpec⟩ (by decide) ⟨web2, dockerSpec⟩ (by decide) (by decide)⟩⟩

/-- Lookup distributes over appending association lists, preferring
the left list. -/
theorem lookupStr_append {β : Type} (k : String) (l1 l2 : List (String × β)) :
    lookupStr k (l1 ++ l2) = (lookupStr k l1).or (lookupStr k l2) := by
  induction l1 with
  | nil => simp [lookupStr]
  | cons p rest ih =>
      by_cases h : p.1 = k
      · simp [lookupStr, h, Option.or]
      · simp [lookupStr, h, ih]

/-- Lookup misses exactly when the key is absent. -/
theorem lookupStr_none_iff {β : Type} (l : List (String × β)) (k : String) :
    lookupStr k l = none ↔ k ∉ l.map Prod.fst := by
  induction l with
  | nil => simp [lookupStr]
  | cons p rest ih =>
      by_cases h : p.1 = k
      · simp [lookupStr, h]
      · rw [show lookupStr k (p :: rest) = lookupStr k rest from by simp [lookupStr, h], ih]
        simp only [List.map_cons, List.mem_cons, not_or]
        exact ⟨fun hk => ⟨fun he => h he.symm, hk⟩, fun hk => hk.2⟩

/-- The `os_configs` fold looks up to the first association whose OS
family matches, no matter what later associations carry. -/
theorem lookupStr_foldl_osStep (l : List ServerConfig) (acc : List (String × Software))
    (f : String) :
    lookupStr f (l.foldl osStep acc) =
      (lookupStr f acc).or
        ((l.find? (fun sc => sc.server.os_family = f)).map (fun sc => sc.config)) := by
  induction l generalizing acc with
  | nil =>
      cases h : lookupStr f acc <;> simp [h, Option.or]
  | cons sc rest ih =>
      simp only [List.foldl_cons, ih]
      unfold osStep
      by_cases hany : acc.any (fun p => p.1 = sc.server.os_family) = true
      · rw [if_pos hany]
        by_cases hf : sc.server.os_family = f
        · rw [List.find?_cons_of_pos _ (by simp [hf])]
          cases hv : lookupStr f acc with
          | none =>
              exact absurd ((lookupStr_none_iff acc f).mp hv)
                (not_not_intro ((any_key_true acc _).mp (hf ▸ hany)))
          | some v => simp [Option.or]
        · rw [List.find?_cons_of_neg _ (by simp [hf])]
      · rw [if_neg hany]
        by_cases hf : sc.server.os_family = f
        · rw [List.find?_cons_of_pos _ (by simp [hf]),
            lookupStr_append, (lookupStr_none_iff acc f).mpr
              (fun hk => hany ((any_key_true acc _).mpr (hf ▸ hk)))]
          simp [lookupStr, hf, Option.or]
        · rw [List.find?_cons_of_neg _ (by simp [hf]), lookupStr_append]
          have h2 : lookupStr f [(sc.server.os_family, sc.config)] = none := by
            simp [lookupStr, hf]
          rw [h2]
          cases hv : lookupStr f acc <;> simp [Option.or]

/-- The `os_configs` fold never duplicates a key. -/
theorem nodup_keys_foldl_osStep (l : List ServerConfig) (acc : List (String × Software))
    (h : (acc.map Prod.fst).Nodup) : ((l.foldl osStep acc).map Prod.fst).Nodup := by
  induction l generalizing acc with
  | nil => simpa using h
  | cons sc rest ih =>
      simp only [List.foldl_cons]
      apply ih
      unfold osStep
      split
      · exact h
      · next hany =>
          simp only [List.map_append, List.map_cons, List.map_nil]
          rw [List.nodup_append]
          refine ⟨h, List.nodup_singleton _, ?_⟩
          intro x hx hx2
          simp only [List.mem_singleton] at hx2
          subst hx2
          exact hany ((any_key_true acc _).mpr hx)

/-- C4: within a software group the derived OS-family map has at most
one entry per family, and the entry for a family is exactly the
configuration of the first association of that family; associations of
the same family arriving later never change it. -/
theorem c4_os_family_first_seen (g : SoftwareGroup) (f : String) :
    ((buildOsConfigs g.servers).map Prod.fst).Nodup ∧
    lookupStr f (buildOsConfigs g.servers) =
      (g.servers.find? (fun sc => sc.server.os_family = f)).map (fun sc => sc.config) := by
  constructor
  · exact nodup_keys_foldl_osStep g.servers [] (by simp)
  · have h := lookupStr_foldl_osStep g.servers [] f
    simpa [lookupStr, Option.or] using h

/-- The nested grouping loop visits exactly the flattened stream of
`(server, software)` pairs. -/
theorem software_groups_go (servers : List Server) (gs : List (String × SoftwareGroup)) :
    servers.foldl (fun gs2 srv => srv.software.foldl (fun gs3 sw => insertSoftware gs3 srv sw) gs2) gs
      = ((servers.map (fun s => s.software.map (fun sw => (s, sw)))).flatten).foldl
          (fun gs2 p => insertSoftware gs2 p.1 p.2) gs := by
  induction servers generalizing gs with
  | nil => rfl
  | cons s rest ih =>
      simp only [List.map_cons, List.flatten_cons, List.foldl_append, List.foldl_cons,
        List.foldl_map]
      exact ih _

/-- `software_groups` is the fold of `insertSoftware` over the pair
stream. -/
theorem software_groups_eq_foldl_pairs (servers : List Server) :
    software_groups servers
      = (pairsOf servers).foldl (fun gs p => insertSoftware gs p.1 p.2) [] := by
  unfold software_groups pairsOf
  exact software_groups_go servers []

/-- Lookup through the in-place update that `insertSoftware` performs
on an existing key. -/
theorem lookupStr_map_update {β : Type} (l : List (String × β)) (k n : String) (f : β → β) :
    lookupStr n (l.map (fun p => if p.1 = k then (p.1, f p.2) else p)) =
      if k = n then (lookupStr n l).map f else lookupStr n l := by
  induction l with
  | nil => by_cases hkn : k = n <;> simp [lookupStr, hkn]
  | cons p rest ih =>
      simp only [List.map_cons]
      by_cases hp : p.1 = k
      · rw [if_pos hp]
        by_cases hkn : k = n
        · have hpn : p.1 = n := hp.trans hkn
          rw [if_pos hkn,
            show lookupStr n ((p.1, f p.2)
                :: rest.map (fun q => if q.1 = k then (q.1, f q.2) else q))
              = some (f p.2) from by simp [lookupStr, hpn],
            show lookupStr n (p :: rest) = some p.2 from by simp [lookupStr, hpn]]
          rfl
        · have hpn : ¬ p.1 = n := fun h2 => hkn (hp.symm.trans h2)
          rw [if_neg hkn,
            show lookupStr n ((p.1, f p.2)
                :: rest.map (fun q => if q.1 = k then (q.1, f q.2) else q))
              = lookupStr n (rest.map (fun q => if q.1 = k then (q.1, f q.2) else q))
              from by simp [lookupStr, hpn],
            show lookupStr n (p :: rest) = lookupStr n rest from by simp [lookupStr, hpn],
            ih, if_neg hkn]
      · rw [if_neg hp]
        by_cases hpn : p.1 = n
        · have hkn : ¬ k = n := fun h2 => hp (hpn.trans h2.symm)
          rw [if_neg hkn]
          simp [lookupStr, hpn]
        · rw [show lookupStr n (p
                :: rest.map (fun q => if q.1 = k then (q.1, f q.2) else q))
              = lookupStr n (rest.map (fun q => if q.1 = k then (q.1, f q.2) else q))
              from by simp [lookupStr, hpn],
            ih,
            show lookupStr n (p :: rest) = lookupStr n rest from by simp [lookupStr, hpn]]

/-- Lookup after one `insertSoftware` step: the named group gains the
pair (starting from an empty group when the name is new); all other
names are untouched. -/
theorem lookupStr_insertSoftware (gs : List (String × SoftwareGroup)) (srv : Server)
    (sw : Software) (n : String) :
    lookupStr n (insertSoftware gs srv sw) =
      if sw.name = n then some (addToGroup ((lookupStr n gs).getD emptyGroup) srv sw)
      else lookupStr n gs := by
  unfold insertSoftware
  by_cases hany : gs.any (fun p => p.1 = sw.name) = true
  · rw [if_pos hany, lookupStr_map_update gs sw.name n (fun g => addToGroup g srv sw)]
    by_cases hn : sw.name = n
    · rw [if_pos hn, if_pos hn]
      obtain ⟨v, hv⟩ : ∃ v, lookupStr n gs = some v := by
        cases hv : lookupStr n gs with
        | none =>
            exact absurd ((lookupStr_none_iff gs n).mp hv)
              (not_not_intro ((any_key_true gs n).mp (hn ▸ hany)))
        | some v => exact ⟨v, rfl⟩
      rw [hv]
      rfl
    · rw [if_neg hn, if_neg hn]
  · rw [if_neg hany, lookupStr_append]
    by_cases hn : sw.name = n
    · rw [if_pos hn]
      have h0 : lookupStr n gs = none := by
        apply (lookupStr_none_iff gs n).mpr
        intro hk
        apply hany
        apply (any_key_true gs sw.name).mpr
        rw [hn]
        exact hk
      rw [h0]
      simp [lookupStr, hn, Option.or]
    · rw [if_neg hn]
      have h1 : lookupStr n [(sw.name, addToGroup emptyGroup srv sw)] = none := by
        simp [lookupStr, hn]
      rw [h1]
      cases hv : lookupStr n gs <;> simp [Option.or]

/-- Folding the pair stream into the group table: the group recorded
under a name is the fold of exactly the pairs carrying that name, in
stream order. -/
theorem lookupStr_foldl_insert (ps : List (Server × Software))
    (gs : List (String × SoftwareGroup)) (n : String) :
    lookupStr n (ps.foldl (fun acc p => insertSoftware acc p.1 p.2) gs) =
      if lookupStr n gs = none ∧ ps.filter (fun p => p.2.name = n) = [] then none
      else some (groupFold ((lookupStr n gs).getD emptyGroup)
        (ps.filter (fun p => p.2.name = n))) := by
  induction ps generalizing gs with
  | nil =>
      cases h : lookupStr n gs <;> simp [h, groupFold]
  | cons p rest ih =>
      simp only [List.foldl_cons]
      rw [ih]
      by_cases hn : p.2.name = n
      · have hins : lookupStr n (insertSoftware gs p.1 p.2)
            = some (addToGroup ((lookupStr n gs).getD emptyGroup) p.1 p.2) := by
          rw [lookupStr_insertSoftware, if_pos hn]
        have hf : (p :: rest).filter (fun q => q.2.name = n)
            = p :: rest.filter (fun q => q.2.name = n) := by
          simp [List.filter_cons, hn]
        rw [hins, hf, if_neg (by simp), if_neg (by simp)]
        simp only [Option.getD_some]
        rfl
      · have hins : lookupStr n (insertSoftware gs p.1 p.2) = lookupStr n gs := by
          rw [lookupStr_insertSoftware, if_neg hn]
        have hf : (p :: rest).filter (fun q => q.2.name = n)
            = rest.filter (fun q => q.2.name = n) := by
          simp [List.filter_cons, hn]
        rw [hins, hf]

/-- The configuration list of a folded group is the first-seen dedup
fold of the incoming specifications, seeded with the existing list. -/
theorem groupFold_configs (g : SoftwareGroup) (ps : List (Server × Software)) :
    (groupFold g ps).configs =
      (ps.map (fun p => p.2)).foldl
        (fun cs sw => if sw ∈ cs then cs else cs ++ [sw]) g.configs := by
  induction ps generalizing g with
  | nil => rfl
  | cons p rest ih =>
      simp only [groupFold, List.foldl_cons, List.map_cons]
      exact ih (addToGroup g p.1 p.2)

/-- The association list of a folded group appends the incoming pairs
in order. -/
theorem groupFold_servers (g : SoftwareGroup) (ps : List (Server × Software)) :
    (groupFold g ps).servers = g.servers ++ ps.map (fun p => ⟨p.1, p.2⟩) := by
  induction ps generalizing g with
  | nil => simp [groupFold]
  | cons p rest ih =>
      simp only [groupFold, List.foldl_cons, List.map_cons]
      rw [show (rest.foldl (fun g2 q => addToGroup g2 q.1 q.2) (addToGroup g p.1 p.2))
          = groupFold (addToGroup g p.1 p.2) rest from rfl, ih]
      simp [addToGroup]

/-- The first-seen dedup fold keeps the accumulator duplicate-free. -/
theorem firstSeenDedup_go_nodup {α : Type} [DecidableEq α] (l acc : List α) (h : acc.Nodup) :
    (l.foldl (fun a x => if x ∈ a then a else a ++ [x]) acc).Nodup := by
  induction l generalizing acc with
  | nil => simpa using h
  | cons x rest ih =>
      simp only [List.foldl_cons]
      by_cases hx : x ∈ acc
      · rw [if_pos hx]
        exact ih _ h
      · rw [if_neg hx]
        refine ih _ ?_
        rw [List.nodup_append]
        refine ⟨h, List.nodup_singleton _, ?_⟩
        intro a ha ha2
        simp only [List.mem_singleton] at ha2
        subst ha2
        exact hx ha

/-- Nothing fed into the first-seen dedup fold is dropped. -/
theorem mem_firstSeenDedup_go {α : Type} [DecidableEq α] (l acc : List α) (x : α)
    (hx : x ∈ l ∨ x ∈ acc) :
    x ∈ l.foldl (fun a y => if y ∈ a then a else a ++ [y]) acc := by
  induction l generalizing acc with
  | nil =>
      simpa using hx.resolve_left (by simp)
  | cons y rest ih =>
      simp only [List.foldl_cons]
      rcases hx with hx | hx
      · rcases List.mem_cons.mp hx with rfl | hx2
        · apply ih
          right
          by_cases hy : x ∈ acc
          · rw [if_pos hy]
            exact hy
          · rw [if_neg hy]
            simp
        · exact ih _ (Or.inl hx2)
      · apply ih
        right
        by_cases hy : y ∈ acc
        · rw [if_pos hy]
          exact hx
        · rw [if_neg hy]
          simp [hx]

/-- `firstSeenDedup` produces a duplicate-free list. -/
theorem firstSeenDedup_nodup {α : Type} [DecidableEq α] (l : List α) :
    (firstSeenDedup l).Nodup :=
  firstSeenDedup_go_nodup l [] List.nodup_nil

/-- `firstSeenDedup` drops nothing but duplicates. -/
theorem mem_firstSeenDedup {α : Type} [DecidableEq α] (l : List α) (x : α) (h : x ∈ l) :
    x ∈ firstSeenDedup l :=
  mem_firstSeenDedup_go l [] x (Or.inl h)

/-- Projecting the name-filtered pair stream to its specifications
gives exactly the name-filtered specification stream. -/
theorem filtered_pairs_map_snd (servers : List Server) (n : String) :
    ((pairsOf servers).filter (fun p => p.2.name = n)).map (fun p => p.2)
      = specsFor servers n := by
  unfold specsFor
  have h1 : (pairsOf servers).map (fun p => p.2) = (servers.map (fun s => s.software)).flatten := by
    unfold pairsOf
    rw [List.map_flatten, List.map_map]
    have h2 : ((List.map fun p => p.2) ∘ fun s : Server => s.software.map (fun sw => (s, sw)))
        = fun s : Server => s.software := by
      funext s
      simp [List.map_map, Function.comp]
    rw [h2]
  rw [← h1, List.filter_map]
  rfl

/-- C5: the grouping engine records, per software name, exactly the
first-seen dedup of the specification stream for that name: one entry
per distinct configuration, in first-seen order, nothing else dropped. -/
theorem c5_configs_first_seen_dedup (servers : List Server) (n : String) (g : SoftwareGroup)
    (h : lookupStr n (software_groups servers) = some g) :
    g.configs = firstSeenDedup (specsFor servers n) ∧
    g.configs.Nodup ∧
    ∀ sw ∈ specsFor servers n, sw ∈ g.configs := by
  have heq : g.configs = firstSeenDedup (specsFor servers n) := by
    rw [software_groups_eq_foldl_pairs, lookupStr_foldl_insert] at h
    by_cases hfp : (pairsOf servers).filter (fun p => p.2.name = n) = []
    · rw [if_pos ⟨rfl, hfp⟩] at h
      exact absurd h (by simp)
    · rw [if_neg (fun hc => hfp hc.2)] at h
      have hg : g = groupFold emptyGroup ((pairsOf servers).filter (fun p => p.2.name = n)) :=
        (Option.some.inj h).symm
      rw [hg, groupFold_configs, filtered_pairs_map_snd]
      rfl
  refine ⟨heq, ?_, ?_⟩
  · rw [heq]
    exact firstSeenDedup_nodup _
  · intro sw hsw
    rw [heq]
    exact mem_firstSeenDedup _ _ hsw

/-- Concrete instantiation of `c5_configs_first_seen_dedup`: two
servers referencing the same docker configuration yield one config
entry. -/
theorem c5_configs_first_seen_dedup_witness :
    lookupStr "docker" (software_groups [web1, web2])
        = some ⟨[dockerSpec], [⟨web1, dockerSpec⟩, ⟨web2, dockerSpec⟩]⟩ ∧
    ((⟨[dockerSpec], [⟨web1, dockerSpec⟩, ⟨web2, dockerSpec⟩]⟩ : SoftwareGroup).configs
        = firstSeenDedup (specsFor [web1, web2] "docker") ∧
      (⟨[dockerSpec], [⟨web1, dockerSpec⟩, ⟨web2, dockerSpec⟩]⟩ :
        SoftwareGroup).configs.Nodup ∧
      ∀ sw ∈ specsFor [web1, web2] "docker",
        sw ∈ (⟨[dockerSpec], [⟨web1, dockerSpec⟩, ⟨web2, dockerSpec⟩]⟩ :
          SoftwareGroup).configs) :=
  ⟨by decide,
   c5_configs_first_seen_dedup [web1, web2] "docker"
     ⟨[dockerSpec], [⟨web1, dockerSpec⟩, ⟨web2, dockerSpec⟩]⟩ (by decide)⟩

/-- Folding pairs that all carry one software name into a singleton
group table just folds them into that group. -/
theorem foldl_insert_uniform (ps : List (Server × Software)) (n : String) (g : SoftwareGroup)
    (h : ∀ p ∈ ps, p.2.name = n) :
    ps.foldl (fun acc p => insertSoftware acc p.1 p.2) [(n, g)] = [(n, groupFold g ps)] := by
  induction ps generalizing g with
  | nil => simp [groupFold]
  | cons p rest ih =>
      simp only [List.foldl_cons]
      have hn : p.2.name = n := h p (List.mem_cons_self _ _)
      have hins : insertSoftware [(n, g)] p.1 p.2 = [(n, addToGroup g p.1 p.2)] := by
        unfold insertSoftware
        rw [if_pos (by simp [hn])]
        simp [hn]
      rw [hins, ih _ (fun q hq => h q (List.mem_cons_of_mem _ hq))]
      rfl

/-- When every server requests exactly the one configuration `cfg`,
the pair stream is the servers paired with `cfg`. -/
theorem pairsOf_uniform (servers : List Server) (cfg : Software)
    (h : ∀ s ∈ servers, s.software = [cfg]) :
    pairsOf servers = servers.map (fun s => (s, cfg)) := by
  induction servers with
  | nil => rfl
  | cons s rest ih =>
      show ((s :: rest).map (fun s2 => s2.software.map (fun sw => (s2, sw)))).flatten = _
      simp only [List.map_cons, List.flatten_cons]
      rw [h s (List.mem_cons_self _ _)]
      simp only [List.map_cons, List.map_nil]
      rw [show (rest.map (fun s2 => s2.software.map (fun sw => (s2, sw)))).flatten
          = pairsOf rest from rfl,
        ih (fun q hq => h q (List.mem_cons_of_mem _ hq))]
      rfl

/-- Uniform servers produce exactly one software group, keyed by the
configuration's name. -/
theorem software_groups_uniform (servers : List Server) (cfg : Software)
    (hne : servers ≠ []) (h : ∀ s ∈ servers, s.software = [cfg]) :
    software_groups servers
      = [(cfg.name, groupFold emptyGroup (servers.map (fun s => (s, cfg))))] := by
  cases servers with
  | nil => exact absurd rfl hne
  | cons s rest =>
      rw [software_groups_eq_foldl_pairs, pairsOf_uniform _ _ h]
      simp only [List.map_cons, List.foldl_cons]
      have hins : insertSoftware [] s cfg = [(cfg.name, addToGroup emptyGroup s cfg)] := by
        unfold insertSoftware
        rw [if_neg (by simp)]
        rfl
      rw [hins,
        foldl_insert_uniform (rest.map (fun s2 => (s2, cfg))) cfg.name _ (by
          intro q hq
          simp only [List.mem_map] at hq
          obtain ⟨s2, _, rfl⟩ := hq
          rfl)]
      rfl

/-- The dedup fold only appends, so it preserves its accumulator as a
prefix. -/
theorem dedup_foldl_prefix {α : Type} [DecidableEq α] (l acc : List α) :
    ∃ tl, l.foldl (fun a x => if x ∈ a then a else a ++ [x]) acc = acc ++ tl := by
  induction l generalizing acc with
  | nil => exact ⟨[], by simp⟩
  | cons x rest ih =>
      simp only [List.foldl_cons]
      by_cases hx : x ∈ acc
      · rw [if_pos hx]
        exact ih acc
      · rw [if_neg hx]
        obtain ⟨tl, htl⟩ := ih (acc ++ [x])
        exact ⟨x :: tl, by rw [htl]; simp⟩

/-- With pairwise distinct hostnames the hosts dict of an inventory
group is just the association list of its servers, in order. -/
theorem inventoryGroupHosts_distinct (scs : List ServerConfig) (acc : List (String × HostVars))
    (hnd : (acc.map Prod.fst ++ scs.map (fun sc => sc.server.hostname)).Nodup) :
    scs.foldl (fun hosts sc => dictInsert hosts sc.server.hostname (hostEntry sc.server)) acc
      = acc ++ scs.map (fun sc => (sc.server.hostname, hostEntry sc.server)) := by
  induction scs generalizing acc with
  | nil => simp
  | cons sc rest ih =>
      simp only [List.foldl_cons, List.map_cons]
      have hmem : sc.server.hostname ∉ acc.map Prod.fst := by
        simp only [List.map_cons] at hnd
        rw [List.nodup_append] at hnd
        intro hx
        exact hnd.2.2 hx (List.mem_cons_self _ _)
      have hdict : dictInsert acc sc.server.hostname (hostEntry sc.server)
          = acc ++ [(sc.server.hostname, hostEntry sc.server)] := by
        unfold dictInsert
        rw [if_neg (fun hc => hmem ((any_key_true acc _).mp hc))]
      have hnd' : ((acc ++ [(sc.server.hostname, hostEntry sc.server)]).map Prod.fst
          ++ rest.map (fun sc2 => sc2.server.hostname)).Nodup := by
        simp only [List.map_append, List.map_cons, List.map_nil]
        rw [List.append_assoc, List.singleton_append]
        simpa using hnd
      rw [hdict, ih _ hnd']
      simp

/-- C6: N servers all requesting the same software configuration, with
pairwise distinct hostnames, group into one SoftwareGroup whose
generated inventory group `<name>_servers` lists exactly those N
hostnames, each carrying its server's instance id and region. -/
theorem c6_inventory_round_trip (servers : List Server) (cfg : Software)
    (hne : servers ≠ [])
    (hsw : ∀ s ∈ servers, s.software = [cfg])
    (hnd : (servers.map (fun s => s.hostname)).Nodup) :
    ∃ g, software_groups servers = [(cfg.name, g)] ∧
      generate_inventory [g] = some [(cfg.name ++ "_servers",
        servers.map (fun s => (s.hostname, hostEntry s)))] := by
  refine ⟨groupFold emptyGroup (servers.map (fun s => (s, cfg))),
    software_groups_uniform servers cfg hne hsw, ?_⟩
  have hcfg : (groupFold emptyGroup (servers.map (fun s => (s, cfg)))).configs.head?
      = some cfg := by
    rw [groupFold_configs]
    cases servers with
    | nil => exact absurd rfl hne
    | cons s rest =>
        simp only [List.map_cons, List.map_map, List.foldl_cons]
        have hacc : (if cfg ∈ emptyGroup.configs then emptyGroup.configs
            else emptyGroup.configs ++ [cfg]) = [cfg] := by
          simp [emptyGroup]
        rw [hacc]
        obtain ⟨tl, htl⟩ := dedup_foldl_prefix
          (rest.map ((fun p : Server × Software => p.2) ∘ fun s2 => (s2, cfg))) [cfg]
        rw [htl]
        rfl
  have hhosts : inventoryGroupHosts (groupFold emptyGroup (servers.map (fun s => (s, cfg))))
      = servers.map (fun s => (s.hostname, hostEntry s)) := by
    unfold inventoryGroupHosts
    rw [groupFold_servers]
    simp only [List.nil_append, List.map_map]
    rw [inventoryGroupHosts_distinct _ [] (by
      simp only [List.map_map, List.nil_append, List.map_nil]
      simpa [Function.comp, emptyGroup] using hnd)]
    simp [Function.comp, emptyGroup]
  unfold generate_inventory
  simp only [List.foldlM_cons, List.foldlM_nil, hcfg, Option.map_some]
  simp [hhosts, dictInsert]

/-- Concrete instantiation of `c9_version_noninterference`: two docker
specs differing only in version produce identical tasks. -/
theorem c9_version_noninterference_witness :
    ({ dockerSpec with version := some "24.0" } : Software).version ≠
      ({ dockerSpec with version := some "18.09" } : Software).version ∧
    generate_basic_tasks { dockerSpec with version := some "24.0" } =
      generate_basic_tasks { dockerSpec with version := some "18.09" } :=
  ⟨by decide,
   (c9_version_noninterference { dockerSpec with version := some "24.0" }
     { dockerSpec with version := some "18.09" } "RedHat" rfl).1⟩

/-- Concrete instantiation of `c6_inventory_round_trip` on two RedHat
servers requesting the docker configuration. -/
theorem c6_inventory_round_trip_witness :
    ([web2, web3] : List Server) ≠ [] ∧
    (∀ s ∈ ([web2, web3] : List Server), s.software = [dockerSpec]) ∧
    (([web2, web3] : List Server).map (fun s => s.hostname)).Nodup ∧
    ∃ g, software_groups [web2, web3] = [(dockerSpec.name, g)] ∧
      generate_inventory [g] = some [(dockerSpec.name ++ "_servers",
        ([web2, web3] : List Server).map (fun s => (s.hostname, hostEntry s)))] :=
  ⟨by decide, by decide, by decide,
   c6_inventory_round_trip [web2, web3] dockerSpec (by decide) (by decide) (by decide)⟩

end AnsibleGen

namespace IamGen

/-- C8: the orchestration entrypoint `create_iam_users.yml` is written
only after the encryption step succeeded — every write-playbook event
sits strictly after an encrypt event — and on any encryption failure
(non-zero exit or missing tool) the run stops without writing it. -/
theorem c8_vault_before_playbook (users : List IAMUser) (pw : String) (enc : EncOutcome) :
    (enc ≠ EncOutcome.ok → ∀ pbs, Event.writePlaybook pbs ∉ main_run users pw enc) ∧
    (∀ (pbs : List Playbook) (i : Nat),
      (main_run users pw enc)[i]? = some (Event.writePlaybook pbs) →
      enc = EncOutcome.ok ∧
        ∃ j : Nat, j < i ∧ (main_run users pw enc)[j]? = some Event.encryptVault) := by
  cases users with
  | nil =>
      constructor
      · intro _ pbs hmem
        simp [main_run] at hmem
      · intro pbs i hi
        simp [main_run] at hi
  | cons u rest =>
      by_cases hpw : pw = ""
      · constructor
        · intro _ pbs hmem
          simp [main_run, hpw] at hmem
        · intro pbs i hi
          simp [main_run, hpw] at hi
      · cases enc with
        | ok =>
            have hl : main_run (u :: rest) pw EncOutcome.ok
                = [Event.writeTempVault (vault_data (u :: rest)), Event.encryptVault,
                   Event.removeTempVault,
                   Event.writePlaybook
                     [create_ansible_playbook (u :: rest) u.expiration_days]] := by
              simp [main_run, hpw, create_vault_file]
            constructor
            · intro hne
              exact absurd rfl hne
            · intro pbs i hi
              rw [hl] at hi
              refine ⟨rfl, ?_⟩
              rcases i with _ | _ | _ | _ | n
              · simp at hi
              · simp at hi
              · simp at hi
              · exact ⟨1, by omega, by rw [hl]; simp⟩
              · simp at hi
        | fail msg =>
            have hl : main_run (u :: rest) pw (EncOutcome.fail msg)
                = [Event.writeTempVault (vault_data (u :: rest)), Event.encryptVault] := by
              simp [main_run, hpw, create_vault_file]
            constructor
            · intro _ pbs hmem
              rw [hl] at hmem
              simp at hmem
            · intro pbs i hi
              rw [hl] at hi
              rcases i with _ | _ | n
              · simp at hi
              · simp at hi
              · simp at hi
        | toolMissing =>
            have hl : main_run (u :: rest) pw EncOutcome.toolMissing
                = [Event.writeTempVault (vault_data (u :: rest))] := by
              simp [main_run, create_vault_file, hpw]
            constructor
            · intro _ pbs hmem
              rw [hl] at hmem
              simp at hmem
            · intro pbs i hi
              rw [hl] at hi
              rcases i with _ | n
              · simp at hi
              · simp at hi

/-- Concrete instantiation of `c8_vault_before_playbook`: with a
failing encryption the playbook is never written. -/
theorem c8_vault_before_playbook_witness :
    (EncOutcome.fail "boom" ≠ EncOutcome.ok) ∧
    ∀ pbs, Event.writePlaybook pbs ∉ main_run [userA] "vpw" (EncOutcome.fail "boom") :=
  ⟨by decide,
   (c8_vault_before_playbook [userA] "vpw" (EncOutcome.fail "boom")).1 (by decide)⟩

/-- C10: the playbook written by a successful run sets the account
password policy's max age to the first user's expiration days, and the
expiration days of every later user influence nothing: replacing them
arbitrarily leaves the generated playbook unchanged. -/
theorem c10_password_policy_first_user (u : IAMUser) (rest rest' : List IAMUser) (pw : String)
    (hpw : ¬ pw = "") (hr : rest.map eraseExp = rest'.map eraseExp) :
    (∃ pre, main_run (u :: rest) pw EncOutcome.ok
        = pre ++ [Event.writePlaybook [create_ansible_playbook (u :: rest) u.expiration_days]]) ∧
    (create_ansible_playbook (u :: rest) u.expiration_days).tasks.head?
      = some (IamTask.password_policy 12 true true true true true u.expiration_days 3 "present") ∧
    create_ansible_playbook (u :: rest) u.expiration_days
      = create_ansible_playbook (u :: rest') u.expiration_days := by
  have hmap : rest.map userTasks = rest'.map userTasks := by
    calc rest.map userTasks
        = rest.map (userTasks ∘ eraseExp) := rfl
      _ = (rest.map eraseExp).map userTasks := (List.map_map _ _ _).symm
      _ = (rest'.map eraseExp).map userTasks := by rw [hr]
      _ = rest'.map (userTasks ∘ eraseExp) := List.map_map _ _ _
      _ = rest'.map userTasks := rfl
  refine ⟨⟨[Event.writeTempVault (vault_data (u :: rest)), Event.encryptVault,
    Event.removeTempVault], ?_⟩, rfl, ?_⟩
  · simp [main_run, hpw, create_vault_file]
  · unfold create_ansible_playbook
    have hmap2 : (u :: rest).map userTasks = (u :: rest').map userTasks := by
      simp only [List.map_cons]
      rw [hmap]
    rw [hmap2]

/-- Concrete instantiation of `c10_password_policy_first_user`: bob's
expiration days change from 30 to 7 without changing the playbook. -/
theorem c10_password_policy_first_user_witness :
    ¬ ("vpw" : String) = "" ∧
    ([userB] : List IAMUser).map eraseExp = [{ userB with expiration_days := 7 }].map eraseExp ∧
    ((∃ pre, main_run [userA, userB] "vpw" EncOutcome.ok
        = pre ++ [Event.writePlaybook
            [create_ansible_playbook [userA, userB] userA.expiration_days]]) ∧
      (create_ansible_playbook [userA, userB] userA.expiration_days).tasks.head?
        = some (IamTask.password_policy 12 true true true true true
            userA.expiration_days 3 "present") ∧
      create_ansible_playbook [userA, userB] userA.expiration_days
        = create_ansible_playbook [userA, { userB with expiration_days := 7 }]
            userA.expiration_days) :=
  ⟨by decide, by decide,
   c10_password_policy_first_user userA [userB] [{ userB with expiration_days := 7 }] "vpw"
     (by decide) (by decide)⟩

end IamGen
